import Mathlib

/-!
Shallow embedding of the INA219 battery monitor (`pi-battery.py`) battery-state
estimation core, and verification of the specification's claims about it.

Conventions of the embedding:
* Python ints are `ℤ`; Python floats are `ℚ` (the numeric pipeline only uses
  ring operations, division and comparisons, all exact here).
* Python `//` (floor division) is `Int.fdiv`; `int(x)` on a float truncates
  toward zero (`pyTrunc`); `round(x)` rounds half to even (`pyRound`);
  `math.ceil` is `Int.ceil`.
* The mutable estimator object becomes explicit state passing: `step` maps the
  pre-call state and the decoded sample (plus the sampled wall-clock time) to
  the emitted record and the post-call state.
-/

namespace PiBattery

/-- Configuration constant `BAT_CELLS` from the source. -/
def BAT_CELLS : ℤ := 3

/-- Configuration constant `BAT_CELL_CAPACITY_mAh` from the source. -/
def BAT_CELL_CAPACITY_mAh : ℤ := 2600

/-- Configuration constant `BAT_VOLTAGE_HIGH_mV` from the source. -/
def BAT_VOLTAGE_HIGH_mV : ℤ := 4128

/-- Configuration constant `BAT_VOLTAGE_LOW_mV` from the source. -/
def BAT_VOLTAGE_LOW_mV : ℤ := 3100

/-- Configuration constant `BAT_FULL_CLAMP` from the source. -/
def BAT_FULL_CLAMP : ℤ := 99

/-- Configuration constant `VOLTAGE_HYSTERESIS_mV` (per cell) from the source. -/
def VOLTAGE_HYSTERESIS_mV : ℤ := 50

/-- Configuration constant `AVG_WINDOW` from the source. -/
def AVG_WINDOW : ℕ := 20

/-- Configuration constant `MAX_HISTORY` from the source. -/
def MAX_HISTORY : ℕ := 500

/-- Configuration constant `CALIBRATION_INTERVAL_S` from the source. -/
def CALIBRATION_INTERVAL_S : ℤ := 3600

/-- Status threshold `THRESHOLD_DISCHARGE_mV = -3.0` from the source. -/
def THRESHOLD_DISCHARGE_mV : ℚ := -3

/-- Status threshold `THRESHOLD_CHARGE_mV = 0.2` from the source. -/
def THRESHOLD_CHARGE_mV : ℚ := 1/5

/-- Derived constant `BAT_CAPACITY_mAh = BAT_CELLS * BAT_CELL_CAPACITY_mAh`. -/
def BAT_CAPACITY_mAh : ℤ := BAT_CELLS * BAT_CELL_CAPACITY_mAh

/-- Derived constant `BAT_VOLTAGE_FULL_mV = BAT_VOLTAGE_HIGH_mV * BAT_CELLS`. -/
def BAT_VOLTAGE_FULL_mV : ℤ := BAT_VOLTAGE_HIGH_mV * BAT_CELLS

/-- Derived constant `BAT_VOLTAGE_EMPTY_mV = BAT_VOLTAGE_LOW_mV * BAT_CELLS`. -/
def BAT_VOLTAGE_EMPTY_mV : ℤ := BAT_VOLTAGE_LOW_mV * BAT_CELLS

/-- Derived constant `BAT_VOLTAGE_HYST_mV = VOLTAGE_HYSTERESIS_mV * BAT_CELLS`. -/
def BAT_VOLTAGE_HYST_mV : ℤ := VOLTAGE_HYSTERESIS_mV * BAT_CELLS

/-- Python `int(x)` on a float: truncation toward zero. -/
def pyTrunc (q : ℚ) : ℤ := if 0 ≤ q then ⌊q⌋ else ⌈q⌉

/-- Python `round(x)` on a float: round half to even (banker's rounding). -/
def pyRound (q : ℚ) : ℤ :=
  let f := ⌊q⌋
  let r := q - (f : ℚ)
  if r < 1/2 then f
  else if 1/2 < r then f + 1
  else if f % 2 = 0 then f else f + 1

/-- The `HistAvg` dataclass: a bounded rolling buffer (`deque(maxlen=maxlen)`)
with the averaging window `win`. -/
structure HistAvg where
  maxlen : ℕ
  win : ℕ
  buf : List ℚ
deriving DecidableEq

/-- Method `HistAvg.add`: append `value` (the deque drops oldest entries beyond
`maxlen`), then return the mean of the whole buffer if it holds at least `win`
samples, else return `value` unchanged. Returns the result and the new state. -/
def HistAvg.add (h : HistAvg) (value : ℚ) : ℚ × HistAvg :=
  let b1 := h.buf ++ [value]
  let b2 := if h.maxlen < b1.length then b1.drop (b1.length - h.maxlen) else b1
  (if h.win ≤ b2.length then b2.sum / (b2.length : ℚ) else value,
   { h with buf := b2 })

/-- A `HistAvg` as constructed by `BatteryEstimator.__init__` (default
`maxlen`/`win`), holding the given buffer. -/
def mkHist (buf : List ℚ) : HistAvg := ⟨MAX_HISTORY, AVG_WINDOW, buf⟩

/-- The persisted calibration state: `dynamic_charge_full_uAh` and
`last_calibration_time`. -/
structure CalState where
  dynamic_charge_full_uAh : ℤ
  last_calibration_time : ℤ
deriving DecidableEq

/-- Default calibration state set in `BatteryEstimator.__init__` before the
file load: nominal design capacity in µAh and epoch time 0. -/
def defaultCalState : CalState :=
  { dynamic_charge_full_uAh := BAT_CAPACITY_mAh * 1000, last_calibration_time := 0 }

/-- Method `BatteryEstimator.calibrate_if_full`: rate-limited (guard 1), near-full
gated (guard 2), downward-only (guard 3) exponential-smoothing update of the
dynamic full capacity. `_save_calibration` is an external effect and does not
change the state, so it is not modelled. -/
def calibrate_if_full (s : CalState) (voltage_mV charge_now_uAh now_s : ℤ) : CalState :=
  if now_s - s.last_calibration_time < CALIBRATION_INTERVAL_S then s
  else if BAT_VOLTAGE_FULL_mV - BAT_VOLTAGE_HYST_mV ≤ voltage_mV then
    if charge_now_uAh < s.dynamic_charge_full_uAh then
      { dynamic_charge_full_uAh :=
          Int.fdiv (s.dynamic_charge_full_uAh * 19 + charge_now_uAh) 20,
        last_calibration_time := now_s }
    else s
  else s

/-- Method `BatteryEstimator.soc_percent_from_voltage_mV`: clamped linear
interpolation with `math.ceil`. -/
def soc_percent_from_voltage_mV (v_mV : ℤ) : ℤ :=
  if BAT_VOLTAGE_FULL_mV ≤ v_mV then 100
  else if v_mV ≤ BAT_VOLTAGE_EMPTY_mV then 0
  else
    ⌈((v_mV - BAT_VOLTAGE_EMPTY_mV) * 100 : ℤ) /
      ((BAT_VOLTAGE_FULL_mV - BAT_VOLTAGE_EMPTY_mV : ℤ) : ℚ)⌉

/-- Method `BatteryEstimator.status_from_shunt_mV`: 2 = discharging, 1 = charging,
0 = full or small current. -/
def status_from_shunt_mV (shunt_mV : ℚ) : ℤ :=
  if shunt_mV < THRESHOLD_DISCHARGE_mV then 2
  else if THRESHOLD_CHARGE_mV < shunt_mV then 1
  else 0

/-- The mutable state of a `BatteryEstimator`: the four averager buffers and
the calibration state. -/
structure EstState where
  volt_hist : List ℚ
  shunt_hist : List ℚ
  curr_hist : List ℚ
  power_hist : List ℚ
  dynamic_charge_full_uAh : ℤ
  last_calibration_time : ℤ
deriving DecidableEq

/-- The record returned by `BatteryEstimator.step` (the payload dict). -/
structure BatteryState where
  bus_voltage_mV : ℤ
  bus_voltage_avg_mV : ℤ
  shunt_voltage_mV : ℚ
  shunt_voltage_avg_mV : ℚ
  current_A : ℚ
  current_avg_A : ℚ
  power_W : ℚ
  power_avg_W : ℚ
  soc_pct : ℤ
  charge_full_uAh : ℤ
  charge_now_uAh : ℤ
  current_now_uA : ℤ
  current_now_avg_uA : ℤ
  status_int : ℤ
  battery_remain_sec : ℤ
deriving DecidableEq

/-- Method `BatteryEstimator.step`, with the call `int(time.time())` made an explicit
argument `now_s`. Returns the emitted record and the post-call state. -/
def step (st : EstState) (bus_voltage_mV : ℤ)
    (shunt_voltage_mV current_A power_W : ℚ) (now_s : ℤ) :
    BatteryState × EstState :=
  let va := (mkHist st.volt_hist).add (bus_voltage_mV : ℚ)
  let bus_voltage_avg_mV := pyRound va.1
  let shunt_voltage_abs_mV := |shunt_voltage_mV|
  let sa := (mkHist st.shunt_hist).add shunt_voltage_abs_mV
  let current_abs_A := |current_A|
  let ca := (mkHist st.curr_hist).add current_abs_A
  let pa := (mkHist st.power_hist).add power_W
  let soc_pct := soc_percent_from_voltage_mV bus_voltage_avg_mV
  let charge_full_uAh := st.dynamic_charge_full_uAh
  let charge_now_uAh := Int.fdiv (charge_full_uAh * soc_pct) 100
  let current_now_uA := pyTrunc (current_abs_A * 1000000)
  let current_now_avg_uA := pyTrunc (ca.1 * 1000000)
  let cal := calibrate_if_full ⟨st.dynamic_charge_full_uAh, st.last_calibration_time⟩
    bus_voltage_mV charge_now_uAh now_s
  let status_int := status_from_shunt_mV shunt_voltage_mV
  let ov :=
    if 100 ≤ soc_pct ∨ (BAT_FULL_CLAMP ≤ soc_pct ∧ (status_int = 0 ∨ status_int = 1)) then
      ((100 : ℤ), charge_full_uAh, (1000 : ℤ), (0 : ℤ))
    else
      (soc_pct, charge_now_uAh, current_now_uA, status_int)
  let battery_remain_sec :=
    if ov.2.2.2 = 2 then
      if current_now_avg_uA ≤ 0 then 0
      else pyTrunc (((ov.2.1 : ℚ) / ((max current_now_avg_uA 1 : ℤ) : ℚ)) * 3600)
    else if ov.2.2.2 = 1 then
      if current_now_avg_uA ≤ 0 then 0
      else pyTrunc ((((charge_full_uAh - ov.2.1 : ℤ) : ℚ) /
        ((max current_now_avg_uA 1 : ℤ) : ℚ)) * 3600)
    else 0
  ({ bus_voltage_mV := bus_voltage_mV
     bus_voltage_avg_mV := bus_voltage_avg_mV
     shunt_voltage_mV := shunt_voltage_mV
     shunt_voltage_avg_mV := sa.1
     current_A := current_A
     current_avg_A := ca.1
     power_W := power_W
     power_avg_W := pa.1
     soc_pct := ov.1
     charge_full_uAh := charge_full_uAh
     charge_now_uAh := ov.2.1
     current_now_uA := ov.2.2.1
     current_now_avg_uA := current_now_avg_uA
     status_int := ov.2.2.2
     battery_remain_sec := battery_remain_sec },
   { volt_hist := va.2.buf
     shunt_hist := sa.2.buf
     curr_hist := ca.2.buf
     power_hist := pa.2.buf
     dynamic_charge_full_uAh := cal.dynamic_charge_full_uAh
     last_calibration_time := cal.last_calibration_time })

/-- Whitespace characters stripped by Python `str.strip()`. -/
def pyIsSpace (c : Char) : Bool :=
  c = ' ' ∨ c = '\t' ∨ c = '\n' ∨ c = '\r' ∨ c = '\x0b' ∨ c = '\x0c'

/-- Python `str.strip()` on a line, over its character list. -/
def pyStrip (l : List Char) : List Char :=
  ((l.dropWhile pyIsSpace).reverse.dropWhile pyIsSpace).reverse

/-- Digit-string value, for Python `int(str)`: `none` unless the list is a
nonempty run of decimal digits. -/
def digitsVal (cs : List Char) : Option ℕ :=
  if cs ≠ [] ∧ cs.all Char.isDigit then
    some (cs.foldl (fun a c => a * 10 + (c.toNat - 48)) 0)
  else none

/-- Python `int(str)`: strip whitespace, optional sign, decimal digits;
`none` models the `ValueError` raised on anything else. -/
def pyIntOfChars (s : List Char) : Option ℤ :=
  match pyStrip s with
  | '-' :: rest => (digitsVal rest).map (fun n => -(n : ℤ))
  | '+' :: rest => (digitsVal rest).map (fun n => (n : ℤ))
  | cs => (digitsVal cs).map (fun n => (n : ℤ))

/-- Split a line at its first `=`: `none` when the line has no `=` (Python
`"=" in line` false), otherwise the parts before and after that first `=`. -/
def splitEq : List Char → Option (List Char × List Char)
  | [] => none
  | c :: cs =>
    if c = '=' then some ([], cs)
    else (splitEq cs).map (fun p => (c :: p.1, p.2))

/-- The loop body of `BatteryEstimator._load_calibration` over the file's
lines. A `ValueError` from `int(v)` on a recognized key escapes the loop and
is caught by the outer `except`, so parsing stops there and the assignments
made so far are kept. -/
def load_calibration_lines : List (List Char) → CalState → CalState
  | [], st => st
  | line :: rest, st =>
    let t := pyStrip line
    if t = [] ∨ t.head? = some '#' then load_calibration_lines rest st
    else
      match splitEq t with
      | none => load_calibration_lines rest st
      | some (k, v) =>
        if k = "DYNAMIC_CHARGE_FULL".data then
          match pyIntOfChars v with
          | some n =>
            load_calibration_lines rest { st with dynamic_charge_full_uAh := n }
          | none => st
        else if k = "LAST_CALIBRATION_TIME".data then
          match pyIntOfChars v with
          | some n =>
            load_calibration_lines rest { st with last_calibration_time := n }
          | none => st
        else load_calibration_lines rest st

/-- Method `BatteryEstimator._load_calibration` on the file's contents: `none` models
an absent file (`FileNotFoundError`, leaving the defaults untouched). -/
def load_calibration (file : Option (List (List Char))) (st : CalState) : CalState :=
  match file with
  | none => st
  | some lines => load_calibration_lines lines st

/-- Projection of `step` onto the emitted record. -/
def stepOut (st : EstState) (bus_voltage_mV : ℤ)
    (shunt_voltage_mV current_A power_W : ℚ) (now_s : ℤ) : BatteryState :=
  (step st bus_voltage_mV shunt_voltage_mV current_A power_W now_s).1

/-- The state of the bus-voltage averager after `n` calls of `add v` starting
from an empty buffer, paired with the value the `n`-th call returned. -/
def addN (v : ℚ) : ℕ → ℚ × HistAvg
  | 0 => (v, mkHist [])
  | n + 1 => (addN v n).2.add v

/-- A run of the calibration controller from the default state: one
`calibrate_if_full` call per calibration interval, always at full voltage,
always observing `charge_now_uAh = 0`. -/
def calChain : ℕ → CalState
  | 0 => defaultCalState
  | n + 1 =>
    calibrate_if_full (calChain n) BAT_VOLTAGE_FULL_mV 0
      (CALIBRATION_INTERVAL_S * ((n : ℤ) + 1))

lemma BAT_VOLTAGE_FULL_mV_eq : BAT_VOLTAGE_FULL_mV = 12384 := by
  norm_num [BAT_VOLTAGE_FULL_mV, BAT_VOLTAGE_HIGH_mV, BAT_CELLS]

lemma BAT_VOLTAGE_EMPTY_mV_eq : BAT_VOLTAGE_EMPTY_mV = 9300 := by
  norm_num [BAT_VOLTAGE_EMPTY_mV, BAT_VOLTAGE_LOW_mV, BAT_CELLS]

/-- C1: `soc_percent_from_voltage_mV` returns 100 at or above the full
voltage (12384 mV), 0 at or below the empty voltage (9300 mV), and otherwise
the ceiling of `(v - V_empty) * 100 / (V_full - V_empty)`; an exact integer
quotient is returned as that integer itself, and the result always lies in
`[0, 100]`. -/
theorem soc_percent_spec (v : ℤ) :
    (BAT_VOLTAGE_FULL_mV ≤ v → soc_percent_from_voltage_mV v = 100) ∧
    (v ≤ BAT_VOLTAGE_EMPTY_mV → soc_percent_from_voltage_mV v = 0) ∧
    (BAT_VOLTAGE_EMPTY_mV < v → v < BAT_VOLTAGE_FULL_mV →
      soc_percent_from_voltage_mV v =
        ⌈((v - BAT_VOLTAGE_EMPTY_mV) * 100 : ℤ) /
          ((BAT_VOLTAGE_FULL_mV - BAT_VOLTAGE_EMPTY_mV : ℤ) : ℚ)⌉ ∧
      ∀ k : ℤ,
        (v - BAT_VOLTAGE_EMPTY_mV) * 100 = k * (BAT_VOLTAGE_FULL_mV - BAT_VOLTAGE_EMPTY_mV) →
        soc_percent_from_voltage_mV v = k) ∧
    0 ≤ soc_percent_from_voltage_mV v ∧ soc_percent_from_voltage_mV v ≤ 100 := by
  unfold soc_percent_from_voltage_mV
  rw [BAT_VOLTAGE_FULL_mV_eq, BAT_VOLTAGE_EMPTY_mV_eq]
  refine ⟨?_, ?_, ?_, ?_, ?_⟩
  · intro h
    rw [if_pos h]
  · intro h
    rw [if_neg (by omega), if_pos h]
  · intro h1 h2
    refine ⟨by rw [if_neg (by omega), if_neg (by omega)], ?_⟩
    intro k hk
    rw [if_neg (by omega), if_neg (by omega)]
    have hq : (((v - 9300) * 100 : ℤ) : ℚ) / ((12384 - 9300 : ℤ) : ℚ) = (k : ℚ) := by
      rw [div_eq_iff (by norm_num : ((12384 - 9300 : ℤ) : ℚ) ≠ 0)]
      exact_mod_cast hk
    rw [hq, Int.ceil_intCast]
  · split_ifs with h1 h2
    · norm_num
    · norm_num
    · refine Int.ceil_nonneg (div_nonneg ?_ (by norm_num))
      have : (0 : ℤ) ≤ (v - 9300) * 100 := by omega
      exact_mod_cast this
  · split_ifs with h1 h2
    · norm_num
    · norm_num
    · rw [Int.ceil_le, div_le_iff₀ (by norm_num : (0 : ℚ) < ((12384 - 9300 : ℤ) : ℚ))]
      have hv : (v - 9300) * 100 ≤ 100 * (12384 - 9300) := by omega
      push_cast
      exact_mod_cast hv

/-- C8: status classification from the raw shunt voltage is Discharging (2)
exactly below `-3.0` mV strictly, otherwise Charging (1) exactly above
`0.2` mV strictly, otherwise Full (0); the boundary `-3.0` itself classifies
as Full. -/
theorem status_from_shunt_spec (s : ℚ) :
    (status_from_shunt_mV s = 2 ↔ s < THRESHOLD_DISCHARGE_mV) ∧
    (status_from_shunt_mV s = 1 ↔ THRESHOLD_DISCHARGE_mV ≤ s ∧ THRESHOLD_CHARGE_mV < s) ∧
    (status_from_shunt_mV s = 0 ↔ THRESHOLD_DISCHARGE_mV ≤ s ∧ s ≤ THRESHOLD_CHARGE_mV) ∧
    status_from_shunt_mV THRESHOLD_DISCHARGE_mV = 0 := by
  unfold status_from_shunt_mV THRESHOLD_DISCHARGE_mV THRESHOLD_CHARGE_mV
  refine ⟨?_, ?_, ?_, by norm_num⟩
  · split_ifs with h1 h2
    · simp [h1]
    · simp only [not_lt] at h1
      exact ⟨fun hh => absurd hh (by norm_num), fun hh => absurd hh (by linarith)⟩
    · simp only [not_lt] at h1 h2
      exact ⟨fun hh => absurd hh (by norm_num), fun hh => absurd hh (by linarith)⟩
  · split_ifs with h1 h2
    · exact ⟨fun hh => absurd hh (by norm_num), fun hh => absurd h1 (by linarith [hh.1])⟩
    · simp only [not_lt] at h1
      exact ⟨fun _ => ⟨h1, h2⟩, fun _ => rfl⟩
    · simp only [not_lt] at h1 h2
      exact ⟨fun hh => absurd hh (by norm_num), fun hh => absurd hh.2 (by linarith)⟩
  · split_ifs with h1 h2
    · exact ⟨fun hh => absurd hh (by norm_num), fun hh => absurd h1 (by linarith [hh.1])⟩
    · simp only [not_lt] at h1
      exact ⟨fun hh => absurd hh (by norm_num), fun hh => absurd h2 (by linarith [hh.2])⟩
    · simp only [not_lt] at h1 h2
      exact ⟨fun _ => ⟨h1, h2⟩, fun _ => rfl⟩

lemma calibrate_dfc_le (s : CalState) (v c n : ℤ) :
    (calibrate_if_full s v c n).dynamic_charge_full_uAh ≤ s.dynamic_charge_full_uAh := by
  unfold calibrate_if_full
  split_ifs with h1 h2 h3
  · exact le_refl _
  · show Int.fdiv (s.dynamic_charge_full_uAh * 19 + c) 20 ≤ s.dynamic_charge_full_uAh
    rw [Int.fdiv_eq_ediv _ (by norm_num)]
    omega
  · exact le_refl _
  · exact le_refl _

lemma calibrate_foldl_dfc_le (calls : List (ℤ × ℤ × ℤ)) : ∀ s : CalState,
    ((calls.foldl (fun t p => calibrate_if_full t p.1 p.2.1 p.2.2) s).dynamic_charge_full_uAh
      ≤ s.dynamic_charge_full_uAh) := by
  induction calls with
  | nil => exact fun s => le_refl _
  | cons p ps ih =>
    intro s
    simp only [List.foldl_cons]
    exact le_trans (ih (calibrate_if_full s p.1 p.2.1 p.2.2)) (calibrate_dfc_le s p.1 p.2.1 p.2.2)

/-- C4: the dynamic full capacity never increases. A call with
`charge_now_uAh >= dynamic_charge_full_uAh` leaves the state unchanged; a call
passing all three guards replaces the capacity by
`floor((old * 19 + charge_now_uAh) / 20)`, strictly below the old value; a
single call never increases the capacity, nor does any sequence of calls. -/
theorem calibrate_if_full_monotone (s : CalState) (v c n : ℤ) (calls : List (ℤ × ℤ × ℤ)) :
    (s.dynamic_charge_full_uAh ≤ c → calibrate_if_full s v c n = s) ∧
    (CALIBRATION_INTERVAL_S ≤ n - s.last_calibration_time →
      BAT_VOLTAGE_FULL_mV - BAT_VOLTAGE_HYST_mV ≤ v →
      c < s.dynamic_charge_full_uAh →
      calibrate_if_full s v c n =
        ⟨Int.fdiv (s.dynamic_charge_full_uAh * 19 + c) 20, n⟩ ∧
      (calibrate_if_full s v c n).dynamic_charge_full_uAh < s.dynamic_charge_full_uAh) ∧
    (calibrate_if_full s v c n).dynamic_charge_full_uAh ≤ s.dynamic_charge_full_uAh ∧
    ((calls.foldl (fun t p => calibrate_if_full t p.1 p.2.1 p.2.2) s).dynamic_charge_full_uAh
      ≤ s.dynamic_charge_full_uAh) := by
  refine ⟨?_, ?_, calibrate_dfc_le s v c n, calibrate_foldl_dfc_le calls s⟩
  · intro h
    unfold calibrate_if_full
    split_ifs with h1 h2 h3
    · rfl
    · exact absurd h3 (not_lt.mpr h)
    · rfl
    · rfl
  · intro g1 g2 g3
    have hcal : calibrate_if_full s v c n =
        ⟨Int.fdiv (s.dynamic_charge_full_uAh * 19 + c) 20, n⟩ := by
      unfold calibrate_if_full
      rw [if_neg (not_lt.mpr g1), if_pos g2, if_pos g3]
    refine ⟨hcal, ?_⟩
    rw [hcal]
    show Int.fdiv (s.dynamic_charge_full_uAh * 19 + c) 20 < s.dynamic_charge_full_uAh
    rw [Int.fdiv_eq_ediv _ (by norm_num)]
    omega

lemma calibrate_dfc_nonneg (s : CalState) (v c n : ℤ)
    (h1 : 0 ≤ s.dynamic_charge_full_uAh) (h2 : 0 ≤ c) :
    0 ≤ (calibrate_if_full s v c n).dynamic_charge_full_uAh := by
  unfold calibrate_if_full
  split_ifs with g1 g2 g3
  · exact h1
  · show 0 ≤ Int.fdiv (s.dynamic_charge_full_uAh * 19 + c) 20
    rw [Int.fdiv_eq_ediv _ (by norm_num)]
    omega
  · exact h1
  · exact h1

lemma calChain_invariant (n : ℕ) :
    0 ≤ (calChain n).dynamic_charge_full_uAh ∧
    ((calChain n).dynamic_charge_full_uAh = 0 ∨
      (calChain n).last_calibration_time = CALIBRATION_INTERVAL_S * n) := by
  induction n with
  | zero =>
    refine ⟨by norm_num [calChain, defaultCalState, BAT_CAPACITY_mAh, BAT_CELLS,
      BAT_CELL_CAPACITY_mAh], Or.inr ?_⟩
    norm_num [calChain, defaultCalState]
  | succ n ih =>
    obtain ⟨hnn, hca⟩ := ih
    refine ⟨calibrate_dfc_nonneg _ _ _ _ hnn (le_refl 0), ?_⟩
    rcases eq_or_lt_of_le hnn with hz | hpos
    · left
      show (calibrate_if_full (calChain n) BAT_VOLTAGE_FULL_mV 0
        (CALIBRATION_INTERVAL_S * ((n : ℤ) + 1))).dynamic_charge_full_uAh = 0
      unfold calibrate_if_full
      split_ifs with g1 g2 g3
      · exact hz.symm
      · exact absurd g3 (by omega)
      · exact hz.symm
      · exact hz.symm
    · have hl : (calChain n).last_calibration_time = CALIBRATION_INTERVAL_S * n := by
        rcases hca with hz0 | hl0
        · omega
        · exact hl0
      right
      show (calibrate_if_full (calChain n) BAT_VOLTAGE_FULL_mV 0
        (CALIBRATION_INTERVAL_S * ((n : ℤ) + 1))).last_calibration_time =
        CALIBRATION_INTERVAL_S * ((n : ℕ) + 1 : ℕ)
      unfold calibrate_if_full
      rw [if_neg (by rw [hl]; unfold CALIBRATION_INTERVAL_S; omega),
        if_pos (by rw [BAT_VOLTAGE_FULL_mV_eq]; norm_num [BAT_VOLTAGE_HYST_mV,
          VOLTAGE_HYSTERESIS_mV, BAT_CELLS]), if_pos hpos]
      push_cast
      ring

lemma calChain_step_lt (n : ℕ) (hpos : 0 < (calChain n).dynamic_charge_full_uAh) :
    (calChain (n + 1)).dynamic_charge_full_uAh < (calChain n).dynamic_charge_full_uAh := by
  obtain ⟨hnn, hca⟩ := calChain_invariant n
  rcases hca with hz | hl
  · omega
  · show (calibrate_if_full (calChain n) BAT_VOLTAGE_FULL_mV 0
      (CALIBRATION_INTERVAL_S * ((n : ℤ) + 1))).dynamic_charge_full_uAh <
      (calChain n).dynamic_charge_full_uAh
    unfold calibrate_if_full
    rw [if_neg (by rw [hl]; unfold CALIBRATION_INTERVAL_S; omega),
      if_pos (by rw [BAT_VOLTAGE_FULL_mV_eq]; norm_num [BAT_VOLTAGE_HYST_mV,
        VOLTAGE_HYSTERESIS_mV, BAT_CELLS]), if_pos hpos]
    show Int.fdiv ((calChain n).dynamic_charge_full_uAh * 19 + 0) 20 <
      (calChain n).dynamic_charge_full_uAh
    rw [Int.fdiv_eq_ediv _ (by norm_num)]
    omega

lemma calChain_reaches_zero_aux (d : ℕ) : ∀ n : ℕ,
    (calChain n).dynamic_charge_full_uAh ≤ (d : ℤ) →
    ∃ m : ℕ, (calChain m).dynamic_charge_full_uAh = 0 := by
  induction d with
  | zero =>
    intro n hn
    exact ⟨n, le_antisymm hn (calChain_invariant n).1⟩
  | succ d ih =>
    intro n hn
    rcases eq_or_lt_of_le (calChain_invariant n).1 with hz | hpos
    · exact ⟨n, hz.symm⟩
    · exact ih (n + 1) (by have := calChain_step_lt n hpos; omega)

lemma calChain_reaches_zero : ∃ m : ℕ, (calChain m).dynamic_charge_full_uAh = 0 :=
  calChain_reaches_zero_aux 7800000 0
    (by norm_num [calChain, defaultCalState, BAT_CAPACITY_mAh, BAT_CELLS, BAT_CELL_CAPACITY_mAh])

/-- C7 counterexample: `dynamic_charge_full_uAh > 0` is not an invariant. A
single `calibrate_if_full` call from the positive state `⟨1, 0⟩` (with
`charge_now_uAh = 0`, at full voltage, past the rate limit) yields capacity 0;
loading the well-formed file line `DYNAMIC_CHARGE_FULL=0` sets capacity 0 from
the default state; and a run of calibration calls from the default constructed
state reaches capacity 0. -/
theorem capacity_positive_invariant_cex :
    0 < (⟨1, 0⟩ : CalState).dynamic_charge_full_uAh ∧
    (calibrate_if_full ⟨1, 0⟩ BAT_VOLTAGE_FULL_mV 0
      CALIBRATION_INTERVAL_S).dynamic_charge_full_uAh = 0 ∧
    (load_calibration (some ["DYNAMIC_CHARGE_FULL=0".data])
      defaultCalState).dynamic_charge_full_uAh = 0 ∧
    ∃ m : ℕ, (calChain m).dynamic_charge_full_uAh = 0 :=
  ⟨by norm_num, by decide, by decide, calChain_reaches_zero⟩

/-- C7 amended: the capacity is positive after construction (7800000 µAh),
and `calibrate_if_full` with a nonnegative observed charge preserves
nonnegativity (`>= 0`); but the value can reach exactly 0 under repeated
calibration (see the counterexample), and `_load_calibration` performs no
validation, storing any parsed integer. -/
theorem capacity_nonneg_amended (s : CalState) (v c n : ℤ) :
    0 < defaultCalState.dynamic_charge_full_uAh ∧
    (0 ≤ s.dynamic_charge_full_uAh → 0 ≤ c →
      0 ≤ (calibrate_if_full s v c n).dynamic_charge_full_uAh) := by
  constructor
  · norm_num [defaultCalState, BAT_CAPACITY_mAh, BAT_CELLS, BAT_CELL_CAPACITY_mAh]
  · exact calibrate_dfc_nonneg s v c n

lemma replicate_mean (k : ℕ) (v : ℚ) (hk : k ≠ 0) :
    (List.replicate k v).sum / ((List.replicate k v).length : ℚ) = v := by
  rw [List.sum_replicate, List.length_replicate, nsmul_eq_mul]
  exact mul_div_cancel_left₀ v (Nat.cast_ne_zero.mpr hk)

lemma addN_buf (v : ℚ) : ∀ n : ℕ, (addN v n).2 = mkHist (List.replicate (min n MAX_HISTORY) v) := by
  intro n
  induction n with
  | zero => simp [addN, mkHist]
  | succ n ih =>
    rw [show addN v (n + 1) = (addN v n).2.add v from rfl, ih]
    unfold mkHist HistAvg.add MAX_HISTORY
    simp only [List.length_replicate, ← List.replicate_succ', List.drop_replicate]
    rcases le_or_lt 500 n with hn | hn
    · rw [min_eq_right hn, min_eq_right (by omega : 500 ≤ n + 1),
        if_pos (by omega : 500 < 500 + 1), show 500 + 1 - (500 + 1 - 500) = 500 by omega]
    · rw [min_eq_left (by omega : n ≤ 500), min_eq_left (by omega : n + 1 ≤ 500),
        if_neg (by omega : ¬ 500 < n + 1)]

/-- C5: one `add` call on a window-20, capacity-500 averager appends the value
(evicting the oldest entry when the buffer is at capacity, so the length stays
at most 500), returns the mean of the whole retained buffer when it holds at
least 20 samples after the append and the raw value otherwise; the first
`add 5` on an empty buffer returns exactly 5, and a constant stream of `v`
returns `v` once at least 20 samples have been added. -/
theorem histAvg_add_spec (buf : List ℚ) (v : ℚ) (n : ℕ) :
    (buf.length ≤ MAX_HISTORY →
      ((mkHist buf).add v).2.buf =
        (if buf.length = MAX_HISTORY then buf.tail else buf) ++ [v]) ∧
    (buf.length ≤ MAX_HISTORY → ((mkHist buf).add v).2.buf.length ≤ MAX_HISTORY) ∧
    (AVG_WINDOW ≤ ((mkHist buf).add v).2.buf.length →
      ((mkHist buf).add v).1 =
        ((mkHist buf).add v).2.buf.sum / (((mkHist buf).add v).2.buf.length : ℚ)) ∧
    (((mkHist buf).add v).2.buf.length < AVG_WINDOW → ((mkHist buf).add v).1 = v) ∧
    ((mkHist []).add 5).1 = 5 ∧
    (AVG_WINDOW ≤ n → (addN v n).1 = v) := by
  have hbuf : buf.length ≤ MAX_HISTORY →
      ((mkHist buf).add v).2.buf =
        (if buf.length = MAX_HISTORY then buf.tail else buf) ++ [v] := by
    intro h
    unfold mkHist HistAvg.add MAX_HISTORY at *
    simp only [List.length_append, List.length_cons, List.length_nil]
    rcases eq_or_lt_of_le h with he | hlt
    · rw [if_pos (by omega), if_pos he, show buf.length + (0 + 1) - 500 = 1 by omega,
        List.drop_append_of_le_length (by omega), List.drop_one]
    · rw [if_neg (by omega), if_neg (by omega)]
  refine ⟨hbuf, ?_, ?_, ?_, ?_, ?_⟩
  · intro h
    rw [hbuf h]
    have ht : buf.tail.length = buf.length - 1 := List.length_tail buf
    unfold MAX_HISTORY at *
    split_ifs with he
    · simp only [List.length_append, List.length_cons, List.length_nil, ht]
      omega
    · simp only [List.length_append, List.length_cons, List.length_nil]
      omega
  · intro h
    unfold mkHist HistAvg.add at h ⊢
    simp only at h ⊢
    rw [if_pos h]
  · intro h
    unfold mkHist HistAvg.add at h ⊢
    simp only at h ⊢
    rw [if_neg (by omega)]
  · norm_num [mkHist, HistAvg.add, MAX_HISTORY, AVG_WINDOW]
  · intro hn
    have hn1 : n ≠ 0 := by
      intro h0
      rw [h0] at hn
      exact absurd hn (by norm_num [AVG_WINDOW])
    obtain ⟨m, rfl⟩ := Nat.exists_eq_succ_of_ne_zero hn1
    rw [show addN v (m + 1) = (addN v m).2.add v from rfl, addN_buf]
    unfold mkHist HistAvg.add AVG_WINDOW
    simp only [← List.replicate_succ', List.length_replicate, List.drop_replicate]
    split_ifs with h1 h2 h3
    · exact replicate_mean _ v (by simp only [List.length_replicate] at h2; omega)
    · rfl
    · exact replicate_mean _ v (by simp only [List.length_replicate] at h3; omega)
    · rfl

/-- The state-of-charge percentage as computed inside `step`, before the
near-full override: the SoC of the rounded average of the bus-voltage history
after the current sample is appended. -/
def stepSoc (volt_hist : List ℚ) (bus_voltage_mV : ℤ) : ℤ :=
  soc_percent_from_voltage_mV (pyRound ((mkHist volt_hist).add (bus_voltage_mV : ℚ)).1)

/-- C2: the near-full override. When the pre-override SoC is at least 100, or
at least `BAT_FULL_CLAMP = 99` while the classified status is Full or
Charging, the emitted record has `soc_pct = 100`,
`charge_now_uAh = charge_full_uAh`, `current_now_uA = 1000` and status Full;
otherwise those four fields keep their previously computed values. -/
theorem step_near_full_override (st : EstState) (busV : ℤ)
    (shuntV currA powW : ℚ) (now : ℤ) :
    if 100 ≤ stepSoc st.volt_hist busV ∨
        (BAT_FULL_CLAMP ≤ stepSoc st.volt_hist busV ∧
          (status_from_shunt_mV shuntV = 0 ∨ status_from_shunt_mV shuntV = 1)) then
      (stepOut st busV shuntV currA powW now).soc_pct = 100 ∧
      (stepOut st busV shuntV currA powW now).charge_now_uAh =
        (stepOut st busV shuntV currA powW now).charge_full_uAh ∧
      (stepOut st busV shuntV currA powW now).current_now_uA = 1000 ∧
      (stepOut st busV shuntV currA powW now).status_int = 0
    else
      (stepOut st busV shuntV currA powW now).soc_pct = stepSoc st.volt_hist busV ∧
      (stepOut st busV shuntV currA powW now).charge_now_uAh =
        Int.fdiv (st.dynamic_charge_full_uAh * stepSoc st.volt_hist busV) 100 ∧
      (stepOut st busV shuntV currA powW now).current_now_uA =
        pyTrunc (|currA| * 1000000) ∧
      (stepOut st busV shuntV currA powW now).status_int =
        status_from_shunt_mV shuntV := by
  simp only [stepOut, step, stepSoc]
  split_ifs with h
  · simp
  · simp

/-- C10: the emitted record is a pure function of the sample, the averager
histories and the calibration state as they are at the start of the call: it
does not depend on the wall-clock time sampled during the step, and its
`charge_full_uAh` is the pre-call (pre-mutation) capacity, so a calibration
performed during the tick first affects the next tick's output. -/
theorem step_output_pure (st : EstState) (busV : ℤ)
    (shuntV currA powW : ℚ) (n₁ n₂ : ℤ) :
    stepOut st busV shuntV currA powW n₁ = stepOut st busV shuntV currA powW n₂ ∧
    (stepOut st busV shuntV currA powW n₁).charge_full_uAh =
      st.dynamic_charge_full_uAh := ⟨rfl, rfl⟩

lemma pyTrunc_div_mul_nonneg (c m : ℤ) (hc : 0 ≤ c) (hm : 0 < m) :
    0 ≤ pyTrunc (((c : ℚ) / (m : ℚ)) * 3600) := by
  have hq : (0 : ℚ) ≤ ((c : ℚ) / (m : ℚ)) * 3600 := by
    apply mul_nonneg _ (by norm_num)
    exact div_nonneg (by exact_mod_cast hc) (by exact_mod_cast le_of_lt hm)
  unfold pyTrunc
  rw [if_pos hq]
  exact Int.floor_nonneg.mpr hq

/-- C3: the remaining-time projection of `step`, in terms of the emitted
record's own (post-override) fields. Discharging: 0 when the averaged current
is nonpositive, else the truncation of
`charge_now_uAh / max(current_now_avg_uA, 1) * 3600`; Charging: the analogous
time to fill `charge_full_uAh - charge_now_uAh`; Full: 0. The `max` guard
makes the division total, and the result is nonnegative whenever
`0 <= charge_now_uAh <= charge_full_uAh`. -/
theorem step_remaining_time_spec (st : EstState) (busV : ℤ)
    (shuntV currA powW : ℚ) (now : ℤ) :
    ((stepOut st busV shuntV currA powW now).status_int = 2 →
      (stepOut st busV shuntV currA powW now).battery_remain_sec =
        if (stepOut st busV shuntV currA powW now).current_now_avg_uA ≤ 0 then 0
        else pyTrunc ((((stepOut st busV shuntV currA powW now).charge_now_uAh : ℚ) /
          ((max (stepOut st busV shuntV currA powW now).current_now_avg_uA 1 : ℤ) : ℚ)) *
          3600)) ∧
    ((stepOut st busV shuntV currA powW now).status_int = 1 →
      (stepOut st busV shuntV currA powW now).battery_remain_sec =
        if (stepOut st busV shuntV currA powW now).current_now_avg_uA ≤ 0 then 0
        else pyTrunc
          ((((stepOut st busV shuntV currA powW now).charge_full_uAh -
            (stepOut st busV shuntV currA powW now).charge_now_uAh : ℤ) : ℚ) /
          ((max (stepOut st busV shuntV currA powW now).current_now_avg_uA 1 : ℤ) : ℚ) *
          3600)) ∧
    ((stepOut st busV shuntV currA powW now).status_int = 0 →
      (stepOut st busV shuntV currA powW now).battery_remain_sec = 0) ∧
    (0 ≤ (stepOut st busV shuntV currA powW now).charge_now_uAh →
      (stepOut st busV shuntV currA powW now).charge_now_uAh ≤
        (stepOut st busV shuntV currA powW now).charge_full_uAh →
      0 ≤ (stepOut st busV shuntV currA powW now).battery_remain_sec) := by
  have hmax : ∀ a : ℤ, (0 : ℤ) < max a 1 := fun a => lt_of_lt_of_le zero_lt_one (le_max_right a 1)
  simp only [stepOut, step]
  by_cases hov : 100 ≤ soc_percent_from_voltage_mV (pyRound ((mkHist st.volt_hist).add (busV : ℚ)).1) ∨
      (BAT_FULL_CLAMP ≤ soc_percent_from_voltage_mV (pyRound ((mkHist st.volt_hist).add (busV : ℚ)).1) ∧
        (status_from_shunt_mV shuntV = 0 ∨ status_from_shunt_mV shuntV = 1))
  · rw [if_pos hov]
    simp
  · rw [if_neg hov]
    dsimp only
    refine ⟨?_, ?_, ?_, ?_⟩
    · intro h2
      rw [if_pos h2]
    · intro h1
      rw [if_neg (by omega), if_pos h1]
    · intro h0
      rw [if_neg (by omega), if_neg (by omega)]
    · intro hc1 hc2
      split_ifs with g1 g2 g3 g4
      · norm_num
      · exact pyTrunc_div_mul_nonneg _ _ hc1 (hmax _)
      · norm_num
      · exact pyTrunc_div_mul_nonneg _ _ (by omega) (hmax _)
      · norm_num

/-- C6 counterexample: a step with post-override status Discharging,
`charge_now_uAh = 3600000` and `current_now_avg_uA = 1000000` (empty
histories, capacity 7200000 µAh, bus 10842 mV giving SoC 50, shunt -5 mV,
current 1 A) yields `battery_remain_sec = 12960`, not 3600 as the spec's test
vector expects. -/
theorem discharging_time_vector_cex :
    (stepOut ⟨[], [], [], [], 7200000, 0⟩ 10842 (-5) 1 0 0).status_int = 2 ∧
    (stepOut ⟨[], [], [], [], 7200000, 0⟩ 10842 (-5) 1 0 0).charge_now_uAh = 3600000 ∧
    (stepOut ⟨[], [], [], [], 7200000, 0⟩ 10842 (-5) 1 0 0).current_now_avg_uA = 1000000 ∧
    (stepOut ⟨[], [], [], [], 7200000, 0⟩ 10842 (-5) 1 0 0).battery_remain_sec ≠ 3600 := by
  norm_num [stepOut, step, mkHist, HistAvg.add, MAX_HISTORY, AVG_WINDOW, pyRound, pyTrunc,
    soc_percent_from_voltage_mV, status_from_shunt_mV, calibrate_if_full,
    BAT_VOLTAGE_FULL_mV, BAT_VOLTAGE_EMPTY_mV, BAT_VOLTAGE_HIGH_mV, BAT_VOLTAGE_LOW_mV,
    BAT_CELLS, BAT_FULL_CLAMP, THRESHOLD_DISCHARGE_mV, THRESHOLD_CHARGE_mV,
    Int.floor_intCast, Int.ceil_eq_iff, Int.floor_eq_iff, Int.fdiv_eq_ediv]

/-- C6 amended: for that same discharging step (`charge_now_uAh = 3600000`,
`current_now_avg_uA = 1000000`), the remaining time is
`trunc(3600000 / 1000000 * 3600) = 12960` seconds (3.6 hours). -/
theorem discharging_time_vector_amended :
    (stepOut ⟨[], [], [], [], 7200000, 0⟩ 10842 (-5) 1 0 0).status_int = 2 ∧
    (stepOut ⟨[], [], [], [], 7200000, 0⟩ 10842 (-5) 1 0 0).charge_now_uAh = 3600000 ∧
    (stepOut ⟨[], [], [], [], 7200000, 0⟩ 10842 (-5) 1 0 0).current_now_avg_uA = 1000000 ∧
    (stepOut ⟨[], [], [], [], 7200000, 0⟩ 10842 (-5) 1 0 0).battery_remain_sec = 12960 := by
  norm_num [stepOut, step, mkHist, HistAvg.add, MAX_HISTORY, AVG_WINDOW, pyRound, pyTrunc,
    soc_percent_from_voltage_mV, status_from_shunt_mV, calibrate_if_full,
    BAT_VOLTAGE_FULL_mV, BAT_VOLTAGE_EMPTY_mV, BAT_VOLTAGE_HIGH_mV, BAT_VOLTAGE_LOW_mV,
    BAT_CELLS, BAT_FULL_CLAMP, THRESHOLD_DISCHARGE_mV, THRESHOLD_CHARGE_mV,
    Int.floor_intCast, Int.ceil_eq_iff, Int.floor_eq_iff, Int.fdiv_eq_ediv]

lemma splitEq_some : ∀ t k v : List Char, splitEq t = some (k, v) → t = k ++ '=' :: v := by
  intro t
  induction t with
  | nil => intro k v h; simp [splitEq] at h
  | cons c cs ih =>
    intro k v h
    unfold splitEq at h
    split_ifs at h with hc
    · simp only [Option.some.injEq, Prod.mk.injEq] at h
      obtain ⟨hk, hv⟩ := h
      subst hk
      subst hv
      rw [hc]
      rfl
    · cases hsp : splitEq cs with
      | none => rw [hsp] at h; simp at h
      | some p =>
        rw [hsp] at h
        simp only [Option.map_some', Option.some.injEq, Prod.mk.injEq] at h
        obtain ⟨hk, hv⟩ := h
        have ht := ih p.1 p.2 (by rw [hsp])
        subst hk
        subst hv
        rw [List.cons_append, ← ht]

/-- C9 counterexample: on the file lines `DYNAMIC_CHARGE_FULL=x` then
`LAST_CALIBRATION_TIME=42`, the first line's `int` failure aborts the rest of
the load, so the recognized key on the second line does not take effect:
`last_calibration_time` stays 0 instead of becoming 42. -/
theorem load_calibration_abort_cex :
    (load_calibration_lines ["DYNAMIC_CHARGE_FULL=x".data, "LAST_CALIBRATION_TIME=42".data]
      defaultCalState).last_calibration_time = 0 ∧
    (load_calibration_lines ["DYNAMIC_CHARGE_FULL=x".data, "LAST_CALIBRATION_TIME=42".data]
      defaultCalState).last_calibration_time ≠ 42 := by
  constructor
  · decide
  · decide

/-- C9 amended: an absent file leaves the defaults unchanged; blank lines,
comment lines, lines without `=` and lines with an unrecognized key are each
skipped individually with parsing continuing on the remaining lines; but a
recognized key whose value fails integer parsing aborts the remainder of the
load (keeping the assignments made so far) rather than being skipped
individually; a recognized key with an integer value takes effect and parsing
continues. -/
theorem load_calibration_tolerance (st : CalState) (rest : List (List Char)) (l : List Char) :
    (load_calibration none st = st) ∧
    (pyStrip l = [] ∨ (pyStrip l).head? = some '#' ∨ splitEq (pyStrip l) = none →
      load_calibration_lines (l :: rest) st = load_calibration_lines rest st) ∧
    (∀ k v, splitEq (pyStrip l) = some (k, v) →
      k ≠ "DYNAMIC_CHARGE_FULL".data → k ≠ "LAST_CALIBRATION_TIME".data →
      load_calibration_lines (l :: rest) st = load_calibration_lines rest st) ∧
    (∀ v m, splitEq (pyStrip l) = some ("DYNAMIC_CHARGE_FULL".data, v) →
      pyIntOfChars v = some m →
      load_calibration_lines (l :: rest) st =
        load_calibration_lines rest { st with dynamic_charge_full_uAh := m }) ∧
    (∀ v, splitEq (pyStrip l) = some ("DYNAMIC_CHARGE_FULL".data, v) →
      pyIntOfChars v = none → load_calibration_lines (l :: rest) st = st) ∧
    (∀ v m, splitEq (pyStrip l) = some ("LAST_CALIBRATION_TIME".data, v) →
      pyIntOfChars v = some m →
      load_calibration_lines (l :: rest) st =
        load_calibration_lines rest { st with last_calibration_time := m }) ∧
    (∀ v, splitEq (pyStrip l) = some ("LAST_CALIBRATION_TIME".data, v) →
      pyIntOfChars v = none → load_calibration_lines (l :: rest) st = st) := by
  have hD : ("DYNAMIC_CHARGE_FULL".data : List Char) = 'D' :: "YNAMIC_CHARGE_FULL".data := rfl
  have hL : ("LAST_CALIBRATION_TIME".data : List Char) = 'L' :: "AST_CALIBRATION_TIME".data := rfl
  have hcons : ∀ st' : CalState, load_calibration_lines (l :: rest) st' =
      (if pyStrip l = [] ∨ (pyStrip l).head? = some '#' then load_calibration_lines rest st'
      else
        match splitEq (pyStrip l) with
        | none => load_calibration_lines rest st'
        | some (k, v) =>
          if k = "DYNAMIC_CHARGE_FULL".data then
            match pyIntOfChars v with
            | some n =>
              load_calibration_lines rest { st' with dynamic_charge_full_uAh := n }
            | none => st'
          else if k = "LAST_CALIBRATION_TIME".data then
            match pyIntOfChars v with
            | some n =>
              load_calibration_lines rest { st' with last_calibration_time := n }
            | none => st'
          else load_calibration_lines rest st') := fun st' => rfl
  refine ⟨rfl, ?_, ?_, ?_, ?_, ?_, ?_⟩
  · intro h
    rw [hcons st]
    rcases h with h | h | h
    · rw [if_pos (Or.inl h)]
    · rw [if_pos (Or.inr h)]
    · by_cases hc : pyStrip l = [] ∨ (pyStrip l).head? = some '#'
      · rw [if_pos hc]
      · rw [if_neg hc, h]
  · intro k v hsp hk1 hk2
    rw [hcons st]
    by_cases hc : pyStrip l = [] ∨ (pyStrip l).head? = some '#'
    · rw [if_pos hc]
    · rw [if_neg hc, hsp]
      simp only [if_neg hk1, if_neg hk2]
  · intro v m hsp hpi
    have hne : ¬ (pyStrip l = [] ∨ (pyStrip l).head? = some '#') := by
      rw [splitEq_some _ _ _ hsp, hD]
      simp
    rw [hcons st, if_neg hne, hsp]
    simp [hpi]
  · intro v hsp hpi
    have hne : ¬ (pyStrip l = [] ∨ (pyStrip l).head? = some '#') := by
      rw [splitEq_some _ _ _ hsp, hD]
      simp
    rw [hcons st, if_neg hne, hsp]
    simp [hpi]
  · intro v m hsp hpi
    have hne : ¬ (pyStrip l = [] ∨ (pyStrip l).head? = some '#') := by
      rw [splitEq_some _ _ _ hsp, hL]
      simp
    rw [hcons st, if_neg hne, hsp]
    dsimp only
    rw [if_neg (by decide)]
    simp [hpi]
  · intro v hsp hpi
    have hne : ¬ (pyStrip l = [] ∨ (pyStrip l).head? = some '#') := by
      rw [splitEq_some _ _ _ hsp, hL]
      simp
    rw [hcons st, if_neg hne, hsp]
    dsimp only
    rw [if_neg (by decide)]
    simp [hpi]

end PiBattery
